import Mathlib

/-!
Shallow embedding of `src/server.js` (shake-race game server).

Modelling conventions:
* JS numbers that carry game quantities (positions, intensities, speed
  coefficients) are embedded as exact rationals `Rat`; millisecond
  timestamps as `Nat` (subtraction in the decay check is done in `Int`,
  as JS subtraction never truncates).
* `gameState.teams` is a JS object keyed by the integer team ids; JS
  iterates such keys in ascending numeric order, so it is embedded as a
  `List Team` ordered by id.  `gameState.players` is keyed by generated
  string ids and iterated in insertion order, so it is a `List Player`
  in insertion order.  Object lookup / update / delete by key become
  `findTeam` / `updateTeam` / `findPlayer` / `updatePlayer` /
  `erasePlayer`.
* The player id `Date.now() + '-' + random` (line 141) is an opaque
  fresh token; it is embedded as a counter `nextId` drawn from the
  state.  No claim depends on the shape of ids, only on freshness.
* WebSocket sends carry no game state back into the server, so outbound
  messages are recorded as `(OutTarget × OutMsg)` values with just the
  fields the claims inspect (error strings, ids); the display/admin
  client sets and the `clients` map are transport bookkeeping with no
  effect on the game state and are not part of `GameState`.
-/

namespace Shr

/-- Game status strings of `gameState.gameStatus` (src/server.js line 24). -/
inductive GameStatus
  | registration
  | racing
  | finished
deriving DecidableEq, Repr

/-- `gameState.settings` (src/server.js lines 15-21). -/
structure Settings where
  numTeams : Nat
  maxPlayers : Nat
  minTeams : Nat
  speedCoef : Rat
  baseSpeed : Rat
deriving DecidableEq, Repr

/-- One entry of `gameState.teams` (src/server.js lines 33-39). -/
structure Team where
  id : Nat
  name : String
  players : List Nat
  position : Rat
  shakeIntensity : Rat
deriving DecidableEq, Repr

/-- One entry of `gameState.players` (src/server.js lines 144-149). -/
structure Player where
  id : Nat
  teamId : Nat
  shakeIntensity : Rat
  lastShake : Nat
deriving DecidableEq, Repr

/-- The authoritative server state `gameState` (src/server.js lines 14-27),
plus the fresh-id counter that stands in for the generated string ids. -/
structure GameState where
  settings : Settings
  teams : List Team
  players : List Player
  gameStatus : GameStatus
  raceStartTime : Option Nat
  winner : Option Team
  nextId : Nat
deriving DecidableEq, Repr

/-- `initializeTeams` (src/server.js lines 30-41): fresh teams with ids
`1..numTeams`, empty name and membership, zero position and intensity. -/
def initializeTeams (settings : Settings) : List Team :=
  (List.range settings.numTeams).map (fun i =>
    { id := i + 1, name := "", players := [], position := 0, shakeIntensity := 0 })

/-- The literal initial settings (src/server.js lines 15-21). -/
def initialSettings : Settings :=
  { numTeams := 7, maxPlayers := 3, minTeams := 1, speedCoef := 1,
    baseSpeed := 1000 / 330 }

/-- The server state right after start-up (lines 14-27 and the
`initializeTeams()` call at line 43). -/
def initialState : GameState :=
  { settings := initialSettings, teams := initializeTeams initialSettings,
    players := [], gameStatus := .registration, raceStartTime := none,
    winner := none, nextId := 0 }

/-- The per-connection role (`clientType` local of the connection handler,
src/server.js line 84). -/
inductive ClientType
  | display
  | admin
  | player
deriving DecidableEq, Repr

/-- The per-connection locals `clientType` and `playerId`
(src/server.js lines 84-85). -/
structure Conn where
  clientType : Option ClientType
  playerId : Option Nat
deriving DecidableEq, Repr

/-- A just-accepted connection: both locals are null. -/
def freshConn : Conn := { clientType := none, playerId := none }

/-- Inbound message shapes, one constructor per recognized `data.type`;
`unknown` stands for a well-formed message whose type matches no case of
the dispatch switch (src/server.js lines 100-245). -/
inductive InMsg
  | request_state
  | register_display
  | register_admin
  | register_player (teamId : Nat) (teamName : String)
  | update_shake (intensity : Rat)
  | start_race
  | update_settings (numTeams maxPlayers minTeams : Option Nat) (speedCoef : Option Rat)
  | reset_game
  | unknown
deriving DecidableEq, Repr

/-- Who a send goes to: `ws.send` to the requester, `broadcast`, or
`broadcastToDisplays` (src/server.js lines 51-78). -/
inductive OutTarget
  | toSender
  | toAll
  | toDisplays
deriving DecidableEq, Repr

/-- Outbound message kinds, with just the payload fields the claims
inspect. -/
inductive OutMsg
  | game_state
  | player_registered (playerId teamId : Nat) (teamName : String)
  | race_started
  | settings_updated
  | game_reset
  | error (message : String)
deriving DecidableEq, Repr

/-- Result of processing one inbound message: the updated connection
locals, the updated game state, and the messages sent. -/
structure HandleResult where
  conn : Conn
  state : GameState
  outputs : List (OutTarget × OutMsg)
deriving DecidableEq, Repr

/-- JS object lookup `gameState.teams[teamId]` (keys are the team ids). -/
def findTeam : List Team → Nat → Option Team
  | [], _ => none
  | t :: ts, teamId => if t.id = teamId then some t else findTeam ts teamId

/-- Writing back a mutated team object under its key. -/
def updateTeam : List Team → Nat → Team → List Team
  | [], _, _ => []
  | t :: ts, teamId, t' => (if t.id = teamId then t' else t) :: updateTeam ts teamId t'

/-- JS object lookup `gameState.players[playerId]`. -/
def findPlayer : List Player → Nat → Option Player
  | [], _ => none
  | p :: ps, pid => if p.id = pid then some p else findPlayer ps pid

/-- Writing back a mutated player object under its key. -/
def updatePlayer : List Player → Nat → (Player → Player) → List Player
  | [], _, _ => []
  | p :: ps, pid, f => (if p.id = pid then f p else p) :: updatePlayer ps pid f

/-- `delete gameState.players[playerId]` (object keys are unique, so
deleting removes the single matching entry). -/
def erasePlayer : List Player → Nat → List Player
  | [], _ => []
  | p :: ps, pid => if p.id = pid then ps else p :: erasePlayer ps pid

/-- JS truthiness guard `if (x) field = x` used by `update_settings`
(src/server.js lines 208-211): an absent field or the falsy value 0
leaves the old value. -/
def applyNat (old : Nat) : Option Nat → Nat
  | some v => if v ≠ 0 then v else old
  | none => old

/-- Same truthiness guard for the rational field `speedCoef`. -/
def applyRat (old : Rat) : Option Rat → Rat
  | some v => if v ≠ 0 then v else old
  | none => old

/-- The `ws.on('message')` callback of src/server.js (lines 87-250):
the early `request_state` reply plus the `switch (data.type)` dispatch.
A message whose type hits no case falls through with no effect and no
reply. -/
def onMessage (conn : Conn) (s : GameState) (msg : InMsg) (now : Nat) : HandleResult :=
  match msg with
  | .request_state =>
    -- lines 92-98: answered only while clientType is still null
    if conn.clientType = none then
      { conn := conn, state := s, outputs := [(.toSender, .game_state)] }
    else
      { conn := conn, state := s, outputs := [] }
  | .register_display =>
    -- lines 101-109
    { conn := { conn with clientType := some .display }, state := s,
      outputs := [(.toSender, .game_state)] }
  | .register_admin =>
    -- lines 111-119
    { conn := { conn with clientType := some .admin }, state := s,
      outputs := [(.toSender, .game_state)] }
  | .register_player teamId teamName =>
    -- lines 121-168
    match findTeam s.teams teamId with
    | none =>
      { conn := conn, state := s, outputs := [(.toSender, .error ("Invalid team"))] }
    | some team =>
      if s.settings.maxPlayers ≤ team.players.length then
        { conn := conn, state := s, outputs := [(.toSender, .error ("Team is full"))] }
      else
        -- lines 135-138: name set only when the team is currently empty
        -- and the proposed name is truthy
        let named := if team.players.length = 0 ∧ teamName ≠ "" then
          { team with name := teamName } else team
        let pid := s.nextId
        let newPlayer : Player :=
          { id := pid, teamId := teamId, shakeIntensity := 0, lastShake := now }
        let team' := { named with players := named.players ++ [pid] }
        { conn := { clientType := some .player, playerId := some pid },
          state := { s with teams := updateTeam s.teams teamId team',
                            players := s.players ++ [newPlayer],
                            nextId := s.nextId + 1 },
          outputs := [(.toSender, .player_registered pid teamId team'.name),
                      (.toAll, .game_state)] }
  | .update_shake intensity =>
    -- lines 170-176: guarded by the connection's playerId being set and
    -- the record still existing; the raw intensity is stored unvalidated
    match conn.playerId with
    | some pid =>
      match findPlayer s.players pid with
      | some _ =>
        let report := fun (p : Player) =>
          { p with shakeIntensity := intensity, lastShake := now }
        { conn := conn,
          state := { s with players := updatePlayer s.players pid report },
          outputs := [] }
      | none => { conn := conn, state := s, outputs := [] }
    | none => { conn := conn, state := s, outputs := [] }
  | .start_race =>
    -- lines 178-202: role and active-team-count guards, but NO guard on
    -- the current gameStatus
    if conn.clientType = some .admin ∨ conn.clientType = some .display then
      if s.settings.minTeams ≤ (s.teams.filter (fun t => t.players.length > 0)).length then
        { conn := conn,
          state := { s with gameStatus := .racing, raceStartTime := some now,
                            winner := none,
                            teams := s.teams.map
                              (fun t => { t with position := 0, shakeIntensity := 0 }) },
          outputs := [(.toAll, .race_started)] }
      else { conn := conn, state := s, outputs := [] }
    else { conn := conn, state := s, outputs := [] }
  | .update_settings numTeams maxPlayers minTeams speedCoef =>
    -- lines 204-222: teams are re-initialized, players are NOT evicted
    if conn.clientType = some .admin then
      let settings' : Settings :=
        { numTeams := applyNat s.settings.numTeams numTeams,
          maxPlayers := applyNat s.settings.maxPlayers maxPlayers,
          minTeams := applyNat s.settings.minTeams minTeams,
          speedCoef := applyRat s.settings.speedCoef speedCoef,
          baseSpeed := s.settings.baseSpeed }
      { conn := conn,
        state := { s with settings := settings', teams := initializeTeams settings' },
        outputs := [(.toAll, .settings_updated)] }
    else { conn := conn, state := s, outputs := [] }
  | .reset_game =>
    -- lines 224-244
    if conn.clientType = some .admin ∨ conn.clientType = some .display then
      { conn := conn,
        state := { s with gameStatus := .registration, raceStartTime := none,
                          winner := none, players := [],
                          teams := initializeTeams s.settings },
        outputs := [(.toAll, .game_reset)] }
    else { conn := conn, state := s, outputs := [] }
  | .unknown =>
    -- no matching case in the switch: fall through, nothing sent
    { conn := conn, state := s, outputs := [] }

/-- The try/catch around the message callback (src/server.js lines 88,
246-249): a payload that fails `JSON.parse` (modelled as `none`) is
answered with the generic error and changes nothing. -/
def onRawMessage (conn : Conn) (s : GameState) (raw : Option InMsg) (now : Nat) :
    HandleResult :=
  match raw with
  | some m => onMessage conn s m now
  | none => { conn := conn, state := s, outputs := [(.toSender, .error ("Server error"))] }

/-- The `ws.on('close')` callback (src/server.js lines 252-277): a player
connection removes its (current) player id from that player's team and
from the registry; display/admin closes only touch the role sets. -/
def onClose (conn : Conn) (s : GameState) : GameState :=
  match conn.clientType with
  | some .player =>
    match conn.playerId with
    | some pid =>
      match findPlayer s.players pid with
      | some player =>
        let teams' :=
          match findTeam s.teams player.teamId with
          | some team =>
            updateTeam s.teams player.teamId
              { team with players := team.players.filter (fun i => i != pid) }
          | none => s.teams
        { s with teams := teams', players := erasePlayer s.players pid }
      | none => s
    | none => s
  | _ => s

/-- Sum of the registered members' current intensities, as accumulated by
the `team.players.forEach` loop (src/server.js lines 294-300): member ids
without a registry record contribute nothing. -/
def teamIntensity (players : List Player) : List Nat → Rat
  | [] => 0
  | pid :: rest =>
    (match findPlayer players pid with
     | some p => p.shakeIntensity
     | none => 0) + teamIntensity players rest

/-- The virtual track width (src/server.js line 288). -/
def trackWidth : Rat := 1000

/-- The per-team body of the racing forEach loop (src/server.js lines
292-306): an active team gets its aggregate intensity recomputed and its
position advanced by `speed * 0.05`; an inactive team is skipped by the
`activeTeams` filter, hence left untouched. -/
def advanceTeam (players : List Player) (settings : Settings) (t : Team) : Team :=
  if t.players.length > 0 then
    { t with shakeIntensity := teamIntensity players t.players,
             position := t.position +
               teamIntensity players t.players * settings.speedCoef *
                 settings.baseSpeed * 0.05 }
  else t

/-- The racing pass of the tick over the team sequence, threading the
`gameState.winner` / `gameState.gameStatus` mutations of the
`activeTeams.forEach` loop (src/server.js lines 287-314): the first
active team whose advanced position reaches the track width while no
winner is set yet becomes the winner and flips the status to finished. -/
def raceStep (players : List Player) (settings : Settings) :
    List Team → Option Team → GameStatus → List Team × Option Team × GameStatus
  | [], winner, status => ([], winner, status)
  | team :: rest, winner, status =>
    if team.players.length > 0 then
      let team' := advanceTeam players settings team
      if trackWidth ≤ team'.position ∧ winner = none then
        let r := raceStep players settings rest (some team') .finished
        (team' :: r.1, r.2)
      else
        let r := raceStep players settings rest winner status
        (team' :: r.1, r.2)
    else
      let r := raceStep players settings rest winner status
      (team :: r.1, r.2)

/-- The racing branch of the tick (src/server.js lines 286-314), applied
to the whole state. -/
def racePass (s : GameState) : GameState :=
  let r := raceStep s.players s.settings s.teams s.winner s.gameStatus
  { s with teams := r.1, winner := r.2.1, gameStatus := r.2.2 }

/-- The decay update of one registry record (src/server.js lines 340-344). -/
def decayPlayer (now : Nat) (p : Player) : Player :=
  if 200 < (now : Int) - (p.lastShake : Int) then
    { p with shakeIntensity := max 0 (p.shakeIntensity - 0.5) }
  else p

/-- The decay pass over the whole registry (src/server.js lines 338-344),
run on every tick regardless of status. -/
def decayPass (players : List Player) (now : Nat) : List Player :=
  players.map (decayPlayer now)

/-- One execution of the `setInterval` body (src/server.js lines 285-345):
the racing pass first (only while racing), then the decay pass.  The
tick-driven broadcasts (race_update / race_finished) carry no state back
into the server and are not modelled. -/
def tick (s : GameState) (now : Nat) : GameState :=
  let s1 := if s.gameStatus = .racing then racePass s else s
  { s1 with players := decayPass s1.players now }

/-! ### Default records for indexed access in theorem statements -/

/-- Default team record used with `List.getD` when indexing team lists. -/
def dTeam : Team :=
  { id := 0, name := "", players := [], position := 0, shakeIntensity := 0 }

/-- Default registry record used with `List.getD`. -/
def dPlayer : Player :=
  { id := 0, teamId := 0, shakeIntensity := 0, lastShake := 0 }

/-! ### Structural lemmas about the tick -/

theorem getD_map_elim {α β : Type} (f : α → β) (d : β) :
    ∀ (l : List α) (i : Nat), (l.map f).getD i d = (l.get? i).elim d f
  | [], _ => rfl
  | _ :: _, 0 => rfl
  | _ :: l, i + 1 => getD_map_elim f d l i

theorem getD_elim {α : Type} (d : α) :
    ∀ (l : List α) (i : Nat), l.getD i d = (l.get? i).elim d id
  | [], _ => rfl
  | _ :: _, 0 => rfl
  | _ :: l, i + 1 => getD_elim d l i

/-- The team sequence produced by the racing pass is exactly the pointwise
loop body: the winner bookkeeping never alters which update each team
receives. -/
theorem raceStep_fst (players : List Player) (settings : Settings) :
    ∀ (ts : List Team) (w : Option Team) (g : GameStatus),
      (raceStep players settings ts w g).1 = ts.map (advanceTeam players settings)
  | [], _, _ => rfl
  | t :: rest, w, g => by
    simp only [raceStep, List.map]
    by_cases ha : t.players.length > 0
    · simp only [if_pos ha]
      split
      · simp [raceStep_fst players settings rest]
      · simp [raceStep_fst players settings rest]
    · simp only [if_neg ha]
      simp [raceStep_fst players settings rest, advanceTeam, if_neg ha]

/-- Once a winner is set, the racing pass never touches the winner or the
status (the guard at src/server.js line 309 requires `!gameState.winner`). -/
theorem raceStep_snd_some (players : List Player) (settings : Settings) (w : Team) :
    ∀ (ts : List Team) (g : GameStatus),
      (raceStep players settings ts (some w) g).2 = (some w, g)
  | [], _ => rfl
  | t :: rest, g => by
    simp only [raceStep]
    by_cases ha : t.players.length > 0
    · simp only [if_pos ha]
      rw [if_neg (by simp)]
      simp [raceStep_snd_some players settings w rest]
    · simp only [if_neg ha]
      simp [raceStep_snd_some players settings w rest]

/-- The racing pass reads the registry but never writes it. -/
theorem racePass_players (s : GameState) : (racePass s).players = s.players := rfl

/-- On every tick the registry is decayed, and nothing else happens to it:
the racing pass only reads it. -/
theorem tick_players (s : GameState) (now : Nat) :
    (tick s now).players = s.players.map (decayPlayer now) := by
  unfold tick
  split <;> rfl

/-- A tick taken in any status other than racing leaves every team
untouched. -/
theorem tick_teams_not_racing (s : GameState) (now : Nat)
    (h : s.gameStatus ≠ .racing) : (tick s now).teams = s.teams := by
  unfold tick
  rw [if_neg h]

/-! ### Concrete states used by counterexamples and witnesses -/

/-- An admin-panel connection. -/
def connAdmin : Conn := { clientType := some .admin, playerId := none }

/-- A finished race: team 1 (one member) has crossed the line and is the
recorded winner. -/
def tFin : Team :=
  { id := 1, name := "Red", players := [0], position := 1000, shakeIntensity := 0 }

/-- A reachable finished-race state (one team, one registered player,
winner set). -/
def sFin : GameState :=
  { settings := initialSettings, teams := [tFin],
    players := [{ id := 0, teamId := 1, shakeIntensity := 0, lastShake := 0 }],
    gameStatus := .finished, raceStartTime := some 0, winner := some tFin,
    nextId := 1 }

/-! ### C1 — winner stability -/

/-- Classification of what one inbound message does to `gameState.winner`:
every handler leaves it alone, except that `start_race` and `reset_game`
may clear it to null (src/server.js lines 186 and 228). -/
theorem onMessage_winner (conn : Conn) (s : GameState) (m : InMsg) (now : Nat) :
    (onMessage conn s m now).state.winner = s.winner ∨
      ((m = .start_race ∨ m = .reset_game) ∧
        (onMessage conn s m now).state.winner = none) := by
  cases m with
  | request_state =>
    left
    simp only [onMessage]
    split <;> rfl
  | register_display => exact Or.inl rfl
  | register_admin => exact Or.inl rfl
  | register_player tid nm =>
    left
    simp only [onMessage]
    cases hft : findTeam s.teams tid with
    | none => rfl
    | some t => simp only [hft] ; split <;> rfl
  | update_shake intensity =>
    left
    simp only [onMessage]
    cases hcp : conn.playerId with
    | none => rfl
    | some pid =>
      simp only [hcp]
      cases hfp : findPlayer s.players pid with
      | none => rfl
      | some p => simp only [hfp]
  | start_race =>
    simp only [onMessage]
    split
    · split
      · exact Or.inr ⟨by simp, rfl⟩
      · exact Or.inl rfl
    · exact Or.inl rfl
  | update_settings a b c d =>
    left
    simp only [onMessage]
    split <;> rfl
  | reset_game =>
    simp only [onMessage]
    split
    · exact Or.inr ⟨by simp, rfl⟩
    · exact Or.inl rfl
  | unknown => exact Or.inl rfl

set_option maxRecDepth 8000 in
/-- C1 (counterexample): with a winner recorded and the race finished, a
`start_race` from an admin — an inbound message other than `resetGame` —
clears the winner: the handler has no gameStatus guard (src/server.js
lines 178-202). -/
theorem C1_counterexample :
    sFin.winner = some tFin ∧
    (onMessage connAdmin sFin .start_race 5000).state.winner = none := by
  with_unfolding_all decide

/-- C1 (amended): once a tick assigns `Session.winner`, no later tick ever
reassigns or clears it, and no inbound message reassigns it to a different
team; however, besides `reset_game`, a `start_race` (admin/display with
enough active teams) also clears the winner, restarting the race without a
reset. -/
theorem C1_winner_stability (s : GameState) (now : Nat) (w : Team) (conn : Conn)
    (m : InMsg) (hw : s.winner = some w) :
    (tick s now).winner = some w ∧
    ((onMessage conn s m now).state.winner = some w ∨
      ((m = .start_race ∨ m = .reset_game) ∧
        (onMessage conn s m now).state.winner = none)) := by
  constructor
  · unfold tick
    split
    · show (racePass s).winner = some w
      unfold racePass
      simp only
      rw [hw, raceStep_snd_some]
    · exact hw
  · rcases onMessage_winner conn s m now with h | h
    · exact Or.inl (h.trans hw)
    · exact Or.inr h

/-- C1 (witness): the amended stability theorem applied at the concrete
finished state: a tick taken there keeps the winner. -/
theorem C1_witness : (tick sFin 100).winner = some tFin :=
  (C1_winner_stability sFin 100 tFin connAdmin .request_state rfl).1

/-! ### C3 — gameStatus transitions -/

/-- Recognizer for the `start_race` message kind. -/
def InMsg.isStartRace : InMsg → Bool
  | .start_race => true
  | _ => false

/-- Recognizer for the `reset_game` message kind. -/
def InMsg.isResetGame : InMsg → Bool
  | .reset_game => true
  | _ => false

/-- Classification of what one inbound message does to
`gameState.gameStatus`: only `start_race` (to racing, src/server.js line
184) and `reset_game` (to registration, line 226) ever write it. -/
theorem onMessage_gameStatus (conn : Conn) (s : GameState) (m : InMsg) (now : Nat) :
    (onMessage conn s m now).state.gameStatus = s.gameStatus ∨
      (m = .start_race ∧ (onMessage conn s m now).state.gameStatus = .racing) ∨
      (m = .reset_game ∧ (onMessage conn s m now).state.gameStatus = .registration) := by
  cases m with
  | request_state =>
    left
    simp only [onMessage]
    split <;> rfl
  | register_display => exact Or.inl rfl
  | register_admin => exact Or.inl rfl
  | register_player tid nm =>
    left
    simp only [onMessage]
    cases hft : findTeam s.teams tid with
    | none => rfl
    | some t => simp only [hft] ; split <;> rfl
  | update_shake intensity =>
    left
    simp only [onMessage]
    cases hcp : conn.playerId with
    | none => rfl
    | some pid =>
      simp only [hcp]
      cases hfp : findPlayer s.players pid with
      | none => rfl
      | some p => simp only [hfp]
  | start_race =>
    simp only [onMessage]
    split
    · split
      · exact Or.inr (Or.inl ⟨by simp, rfl⟩)
      · exact Or.inl rfl
    · exact Or.inl rfl
  | update_settings a b c d =>
    left
    simp only [onMessage]
    split <;> rfl
  | reset_game =>
    simp only [onMessage]
    split
    · exact Or.inr (Or.inr ⟨by simp, rfl⟩)
    · exact Or.inl rfl
  | unknown => exact Or.inl rfl

set_option maxRecDepth 8000 in
/-- C3 (counterexample): a `start_race` received while gameStatus is
Finished does NOT leave the state unchanged — the handler has no
gameStatus guard, so it transitions Finished → Racing without a
`resetGame` (src/server.js lines 178-202). -/
theorem C3_counterexample :
    sFin.gameStatus = .finished ∧
    (onMessage connAdmin sFin .start_race 5000).state.gameStatus = .racing := by
  with_unfolding_all decide

/-- C3 (amended): inbound messages other than `start_race` / `reset_game`
never change gameStatus, and the only transitions a message can cause are
to Racing (via `start_race`) or to Registration (via `reset_game`); but
`start_race` is guarded only by requester role and active-team count, not
by gameStatus, so it restarts the race even from Finished (or Racing)
whenever its guards pass. -/
theorem C3_status_machine (conn : Conn) (s : GameState) (m : InMsg) (now : Nat) :
    (m.isStartRace = false → m.isResetGame = false →
      (onMessage conn s m now).state.gameStatus = s.gameStatus) ∧
    ((onMessage conn s m now).state.gameStatus = s.gameStatus ∨
      (m = .start_race ∧ (onMessage conn s m now).state.gameStatus = .racing) ∨
      (m = .reset_game ∧ (onMessage conn s m now).state.gameStatus = .registration)) ∧
    (m = .start_race →
      (conn.clientType = some .admin ∨ conn.clientType = some .display) →
      s.settings.minTeams ≤ (s.teams.filter (fun t => t.players.length > 0)).length →
      (onMessage conn s m now).state.gameStatus = .racing) := by
  refine ⟨?_, onMessage_gameStatus conn s m now, ?_⟩
  · intro hsr hrg
    rcases onMessage_gameStatus conn s m now with h | ⟨hm, _⟩ | ⟨hm, _⟩
    · exact h
    · subst hm ; simp [InMsg.isStartRace] at hsr
    · subst hm ; simp [InMsg.isResetGame] at hrg
  · intro hm hrole hcount
    subst hm
    simp only [onMessage]
    rw [if_pos hrole, if_pos hcount]

/-- C3 (witness): the amended theorem applied at the finished state with
an admin requester and one active team: the race restarts. -/
theorem C3_witness :
    (onMessage connAdmin sFin .start_race 5000).state.gameStatus = .racing :=
  (C3_status_machine connAdmin sFin .start_race 5000).2.2 rfl (Or.inl rfl)
    (by with_unfolding_all decide)

/-! ### C2 — team capacity and the TeamFull error -/

/-- Claim C2's invariant: no team's member count exceeds the configured
capacity. -/
def capOK (s : GameState) : Prop :=
  ∀ t ∈ s.teams, t.players.length ≤ s.settings.maxPlayers

theorem findTeam_mem :
    ∀ {ts : List Team} {tid : Nat} {t : Team}, findTeam ts tid = some t → t ∈ ts := by
  intro ts
  induction ts with
  | nil => intro tid t h ; cases h
  | cons a as ih =>
    intro tid t h
    simp only [findTeam] at h
    split at h
    · cases h ; exact List.mem_cons_self a as
    · exact List.mem_cons_of_mem a (ih h)

theorem findTeam_id :
    ∀ {ts : List Team} {tid : Nat} {t : Team}, findTeam ts tid = some t → t.id = tid := by
  intro ts
  induction ts with
  | nil => intro tid t h ; cases h
  | cons a as ih =>
    intro tid t h
    simp only [findTeam] at h
    split at h
    · cases h ; assumption
    · exact ih h

theorem findPlayer_mem :
    ∀ {ps : List Player} {pid : Nat} {p : Player}, findPlayer ps pid = some p → p ∈ ps := by
  intro ps
  induction ps with
  | nil => intro pid p h ; cases h
  | cons a as ih =>
    intro pid p h
    simp only [findPlayer] at h
    split at h
    · cases h ; exact List.mem_cons_self a as
    · exact List.mem_cons_of_mem a (ih h)

theorem mem_updateTeam {ts : List Team} {tid : Nat} {t' u : Team}
    (h : u ∈ updateTeam ts tid t') : u = t' ∨ u ∈ ts := by
  induction ts with
  | nil => cases h
  | cons a as ih =>
    simp only [updateTeam] at h
    rcases List.mem_cons.mp h with h | h
    · split at h
      · exact Or.inl h
      · exact Or.inr (h ▸ List.mem_cons_self a as)
    · rcases ih h with h | h
      · exact Or.inl h
      · exact Or.inr (List.mem_cons_of_mem a h)

/-- One `register_player` message preserves the capacity bound: the
handler refuses when the team is already at capacity (src/server.js line
130) and otherwise appends exactly one member. -/
theorem register_capOK (conn : Conn) (s : GameState) (tid : Nat) (nm : String)
    (now : Nat) (h : capOK s) :
    capOK (onMessage conn s (.register_player tid nm) now).state := by
  simp only [onMessage]
  cases hft : findTeam s.teams tid with
  | none => exact h
  | some t =>
    simp only [hft]
    split
    · exact h
    · next hnotfull =>
      intro u hu
      simp only at hu
      rcases mem_updateTeam hu with hu | hu
      · subst hu
        simp only [List.length_append]
        have ht := h t (findTeam_mem hft)
        have hlt : t.players.length < s.settings.maxPlayers :=
          Nat.lt_of_not_le hnotfull
        split <;> simpa using hlt
      · exact h u hu

/-- Applying a sequence of `register_player` messages (connection, team
id, proposed name, timestamp), tracking only the game state. -/
def applyRegisters (s : GameState) : List (Conn × Nat × String × Nat) → GameState
  | [] => s
  | e :: rest =>
    applyRegisters (onMessage e.1 s (.register_player e.2.1 e.2.2.1) e.2.2.2).state rest

/-- C2: for every sequence of registerPlayer calls no team ever exceeds
`maxPlayers`, and a registration against a team already at capacity is
answered with the `Team is full` error to the requester only, leaving the
connection and the whole game state unchanged (src/server.js lines
130-133). -/
theorem C2_capacity (s : GameState) (evs : List (Conn × Nat × String × Nat))
    (hcap : capOK s) :
    capOK (applyRegisters s evs) ∧
    ∀ (conn : Conn) (tid : Nat) (nm : String) (now : Nat) (t : Team),
      findTeam s.teams tid = some t →
      s.settings.maxPlayers ≤ t.players.length →
      onMessage conn s (.register_player tid nm) now =
        { conn := conn, state := s,
          outputs := [(.toSender, .error ("Team is full"))] } := by
  constructor
  · induction evs generalizing s with
    | nil => exact hcap
    | cons e rest ih =>
      exact ih _ (register_capOK e.1 s e.2.1 e.2.2.1 e.2.2.2 hcap)
  · intro conn tid nm now t hft hfull
    simp only [onMessage, hft]
    rw [if_pos hfull]

/-- A state with team 1 at full capacity (three members, maxPlayers 3). -/
def sFull : GameState :=
  { settings := initialSettings,
    teams := [{ id := 1, name := "Reds", players := [0, 1, 2], position := 0,
                shakeIntensity := 0 }],
    players := [{ id := 0, teamId := 1, shakeIntensity := 0, lastShake := 0 },
                { id := 1, teamId := 1, shakeIntensity := 0, lastShake := 0 },
                { id := 2, teamId := 1, shakeIntensity := 0, lastShake := 0 }],
    gameStatus := .registration, raceStartTime := none, winner := none,
    nextId := 3 }

/-- C2 (witness): registering a fourth player to the full team 1 yields
exactly the targeted `Team is full` error with nothing mutated. -/
theorem C2_witness :
    onMessage freshConn sFull (.register_player 1 "X") 7 =
      { conn := freshConn, state := sFull,
        outputs := [(.toSender, .error ("Team is full"))] } :=
  (C2_capacity sFull [] (by unfold capOK ; with_unfolding_all decide)).2 freshConn 1 "X" 7
    { id := 1, name := "Reds", players := [0, 1, 2], position := 0,
      shakeIntensity := 0 }
    (by with_unfolding_all decide) (by with_unfolding_all decide)

/-! ### C9 — unrecognized and malformed messages -/

/-- C9 (counterexample): an unrecognized message type is swallowed with
the state unchanged, but the sender receives NO reply at all — the switch
has no default case, and the catch block only fires on parse failures, so
no generic server-error acknowledgment is sent (src/server.js lines
100-245). -/
theorem C9_counterexample :
    (onMessage freshConn initialState .unknown 0).outputs = [] ∧
    (onMessage freshConn initialState .unknown 0).state = initialState := by
  with_unfolding_all decide

/-- C9 (amended): a well-formed message with an unrecognized type is
swallowed silently — no state mutation, no reply, connection untouched
(and never closed); only a malformed (unparseable) payload is answered
with the generic `Server error` acknowledgment, likewise without mutating
state (src/server.js lines 246-249). -/
theorem C9_unrecognized (conn : Conn) (s : GameState) (now : Nat) :
    onMessage conn s .unknown now = { conn := conn, state := s, outputs := [] } ∧
    onRawMessage conn s none now =
      { conn := conn, state := s,
        outputs := [(.toSender, .error ("Server error"))] } :=
  ⟨rfl, rfl⟩

/-! ### C8 — the decay pass -/

/-- C8: on every tick, regardless of gameStatus, a registry record whose
last input is more than 200 ms old gets `shakeIntensity := max 0
(shakeIntensity - 0.5)` (so it never becomes negative through decay) with
its timestamp untouched, and a record within the threshold is left
completely unchanged (src/server.js lines 338-344). -/
theorem C8_decay (s : GameState) (now : Nat) :
    (tick s now).players.length = s.players.length ∧
    ∀ i : Nat,
      (200 < (now : Int) - ((s.players.getD i dPlayer).lastShake : Int) →
        ((tick s now).players.getD i dPlayer).shakeIntensity =
          max 0 ((s.players.getD i dPlayer).shakeIntensity - 0.5) ∧
        ((tick s now).players.getD i dPlayer).lastShake =
          (s.players.getD i dPlayer).lastShake ∧
        0 ≤ ((tick s now).players.getD i dPlayer).shakeIntensity) ∧
      (¬ 200 < (now : Int) - ((s.players.getD i dPlayer).lastShake : Int) →
        (tick s now).players.getD i dPlayer = s.players.getD i dPlayer) := by
  have hp := tick_players s now
  constructor
  · rw [hp, List.length_map]
  · intro i
    rw [hp, getD_map_elim, getD_elim]
    cases hgi : s.players.get? i with
    | none =>
      simp only [Option.elim]
      constructor
      · intro _
        refine ⟨?_, trivial, le_refl 0⟩
        show (0 : Rat) = max 0 (0 - 0.5)
        with_unfolding_all decide
      · intro _ ; trivial
    | some p =>
      simp only [Option.elim, id]
      unfold decayPlayer
      split
      · next hidle =>
        constructor
        · intro _
          exact ⟨rfl, rfl, le_max_left 0 _⟩
        · intro hcon ; exact absurd hidle hcon
      · next hfresh =>
        constructor
        · intro hcon ; exact absurd hcon hfresh
        · intro _ ; rfl

/-- C8 (witness): at a concrete state whose players last shook at time 0,
a tick at time 1000 applies the floored decay step to player 0. -/
theorem C8_witness :
    ((tick sFull 1000).players.getD 0 dPlayer).shakeIntensity =
      max 0 ((sFull.players.getD 0 dPlayer).shakeIntensity - 0.5) :=
  (((C8_decay sFull 1000).2 0).1 (by with_unfolding_all decide)).1

/-! ### C5 — order of the tick passes -/

/-- A racing state with one team whose single player reported intensity
10 at time 0 (and is therefore idle at tick time 1000). -/
def sC5 : GameState :=
  { settings := initialSettings,
    teams := [{ id := 1, name := "Red", players := [0], position := 0,
                shakeIntensity := 0 }],
    players := [{ id := 0, teamId := 1, shakeIntensity := 10, lastShake := 0 }],
    gameStatus := .racing, raceStartTime := some 0, winner := none, nextId := 1 }

/-- A tick taken while racing leaves the team sequence as the pointwise
racing-loop update computed from the pre-decay registry. -/
theorem tick_teams_racing (s : GameState) (now : Nat) (h : s.gameStatus = .racing) :
    (tick s now).teams = s.teams.map (advanceTeam s.players s.settings) := by
  unfold tick
  rw [if_pos h]
  show (racePass s).teams = _
  unfold racePass
  simp only
  exact raceStep_fst s.players s.settings s.teams s.winner s.gameStatus

set_option maxRecDepth 8000 in
/-- C5 (counterexample): in the tick at time 1000 the idle player is
decayed from 10 to 19/2, yet the team aggregate recorded and integrated
in that very tick is the undecayed 10, advancing the position to 50/33 —
which differs from what integrating the decayed intensity would give.
The decay pass (src/server.js lines 338-344) runs AFTER the racing
integration (lines 286-314), not before. -/
theorem C5_counterexample :
    sC5.gameStatus = .racing ∧
    ((tick sC5 1000).teams.getD 0 dTeam).shakeIntensity = 10 ∧
    ((tick sC5 1000).players.getD 0 dPlayer).shakeIntensity = 19 / 2 ∧
    ((tick sC5 1000).teams.getD 0 dTeam).position = 50 / 33 ∧
    (sC5.teams.getD 0 dTeam).position +
        ((tick sC5 1000).players.getD 0 dPlayer).shakeIntensity *
          sC5.settings.speedCoef * sC5.settings.baseSpeed * 0.05 ≠ 50 / 33 := by
  with_unfolding_all decide

/-- C5 (amended): each tick integrates first and decays second: the
registry leaving the tick is the decay of the registry that entered it,
and every active team's recorded aggregate (used to advance its position)
is the sum over the PRE-decay registry, i.e. the intensities as left by
the previous tick. -/
theorem C5_integrate_then_decay (s : GameState) (now : Nat)
    (hs : s.gameStatus = .racing) :
    (tick s now).players = decayPass s.players now ∧
    ∀ i : Nat,
      ((tick s now).teams.getD i dTeam).shakeIntensity =
        (if (s.teams.getD i dTeam).players.length > 0
         then teamIntensity s.players (s.teams.getD i dTeam).players
         else (s.teams.getD i dTeam).shakeIntensity) := by
  constructor
  · exact tick_players s now
  · intro i
    rw [tick_teams_racing s now hs, getD_map_elim, getD_elim]
    cases hgi : s.teams.get? i with
    | none => simp [Option.elim, dTeam]
    | some t =>
      simp only [Option.elim, id]
      unfold advanceTeam
      split
      · rfl
      · rfl

/-- C5 (witness): the amended theorem at the concrete racing state: the
registry leaving the tick is exactly the decayed incoming registry. -/
theorem C5_witness : (tick sC5 1000).players = decayPass sC5.players 1000 :=
  (C5_integrate_then_decay sC5 1000 rfl).1

/-! ### C4 — position monotonicity -/

/-- A racing state whose single player reported a NEGATIVE intensity
(update_shake stores the raw value with no validation, src/server.js
lines 170-176). -/
def sC4 : GameState :=
  { settings := initialSettings,
    teams := [{ id := 1, name := "Red", players := [0], position := 0,
                shakeIntensity := 0 }],
    players := [{ id := 0, teamId := 1, shakeIntensity := -100, lastShake := 0 }],
    gameStatus := .racing, raceStartTime := some 0, winner := none, nextId := 1 }

/-- When every registry record is non-negative, so is every team
aggregate. -/
theorem teamIntensity_nonneg (players : List Player)
    (h : ∀ p ∈ players, 0 ≤ p.shakeIntensity) :
    ∀ ids : List Nat, 0 ≤ teamIntensity players ids
  | [] => le_refl 0
  | pid :: rest => by
    unfold teamIntensity
    have h1 : 0 ≤ teamIntensity players rest := teamIntensity_nonneg players h rest
    have h2 : (0 : Rat) ≤
        (match findPlayer players pid with
         | some p => p.shakeIntensity
         | none => 0) := by
      cases hfp : findPlayer players pid with
      | none => exact le_refl 0
      | some p => exact h p (findPlayer_mem hfp)
    exact add_nonneg h2 h1

/-- The racing-loop body never moves a team backwards when its aggregate
and the speed factors are non-negative. -/
theorem advanceTeam_position (players : List Player) (settings : Settings) (t : Team)
    (hI : 0 ≤ teamIntensity players t.players)
    (hc : 0 ≤ settings.speedCoef) (hb : 0 ≤ settings.baseSpeed) :
    t.position ≤ (advanceTeam players settings t).position := by
  unfold advanceTeam
  split
  · simp only
    have hstep : (0 : Rat) ≤ teamIntensity players t.players *
        settings.speedCoef * settings.baseSpeed * 0.05 := by
      have h5 : (0 : Rat) ≤ 0.05 := by norm_num
      exact mul_nonneg (mul_nonneg (mul_nonneg hI hc) hb) h5
    linarith
  · exact le_refl _

set_option maxRecDepth 8000 in
/-- C4 (counterexample): with a (accepted, unvalidated) negative reported
intensity, a tick taken during Racing DECREASES the team's position: the
claim's "for all reported shake intensities" fails. -/
theorem C4_counterexample :
    sC4.gameStatus = .racing ∧
    ((tick sC4 300).teams.getD 0 dTeam).position <
      (sC4.teams.getD 0 dTeam).position := by
  with_unfolding_all decide

/-- C4 (amended): provided every registry intensity is non-negative (and
the speed factors are non-negative — negative reported intensities are
accepted unvalidated and break this), every team's position is
non-decreasing across a tick; and once gameStatus is Finished — which the
winning tick sets — later ticks leave every team untouched.  (Within the
winning tick itself, teams after the winner in iteration order are still
advanced.) -/
theorem C4_position_mono (s : GameState) (now : Nat)
    (hp : ∀ p ∈ s.players, 0 ≤ p.shakeIntensity)
    (hc : 0 ≤ s.settings.speedCoef) (hb : 0 ≤ s.settings.baseSpeed) :
    (∀ i : Nat, (s.teams.getD i dTeam).position ≤
      ((tick s now).teams.getD i dTeam).position) ∧
    (s.gameStatus = .finished → (tick s now).teams = s.teams) := by
  constructor
  · intro i
    by_cases hst : s.gameStatus = .racing
    · rw [tick_teams_racing s now hst, getD_map_elim, getD_elim]
      cases hgi : s.teams.get? i with
      | none => simp [Option.elim]
      | some t =>
        simp only [Option.elim, id]
        exact advanceTeam_position s.players s.settings t
          (teamIntensity_nonneg s.players hp t.players) hc hb
    · rw [tick_teams_not_racing s now hst]
  · intro hfin
    exact tick_teams_not_racing s now (by rw [hfin] ; intro h ; cases h)

/-- C4 (witness): the amended monotonicity applied to the concrete racing
state with non-negative intensities. -/
theorem C4_witness :
    (sC5.teams.getD 0 dTeam).position ≤ ((tick sC5 300).teams.getD 0 dTeam).position :=
  (C4_position_mono sC5 300 (by with_unfolding_all decide)
    (by with_unfolding_all decide) (by with_unfolding_all decide)).1 0

/-! ### C6 — team displayName stability -/

/-- Updating the team stored under a key that is present yields the new
team under that key. -/
theorem findTeam_updateTeam :
    ∀ (ts : List Team) (tid : Nat) (t t' : Team),
      findTeam ts tid = some t → t'.id = tid →
      findTeam (updateTeam ts tid t') tid = some t'
  | [], _, _, _, h, _ => by cases h
  | a :: as, tid, t, t', h, hid => by
    by_cases ha : a.id = tid
    · show findTeam ((if a.id = tid then t' else a) :: updateTeam as tid t') tid = some t'
      rw [if_pos ha]
      show (if t'.id = tid then some t' else findTeam (updateTeam as tid t') tid) = some t'
      rw [if_pos hid]
    · show findTeam ((if a.id = tid then t' else a) :: updateTeam as tid t') tid = some t'
      rw [if_neg ha]
      show (if a.id = tid then some a else findTeam (updateTeam as tid t') tid) = some t'
      rw [if_neg ha]
      have h' : findTeam as tid = some t := by
        have hstep : findTeam (a :: as) tid =
            if a.id = tid then some a else findTeam as tid := rfl
        rw [hstep, if_neg ha] at h
        exact h
      exact findTeam_updateTeam as tid t t' h' hid

/-- First registration: team 1 gets its first member and the name
`"Red"`. -/
def c6reg1 : HandleResult :=
  onMessage freshConn initialState (.register_player 1 "Red") 0

/-- The registering connection then disconnects: team 1 is empty again
but keeps the name `"Red"`. -/
def c6afterClose : GameState := onClose c6reg1.conn c6reg1.state

/-- A later registration to the (now empty) team 1 proposing the name
`"Blue"`. -/
def c6reg2 : HandleResult :=
  onMessage freshConn c6afterClose (.register_player 1 "Blue") 500

set_option maxRecDepth 8000 in
/-- C6 (counterexample): once the first member's disconnect empties team
1, the next registrant's proposed name OVERWRITES the displayName — the
name guard only checks `team.players.length === 0` (src/server.js line
136), not whether a name was ever set. -/
theorem C6_counterexample :
    (findTeam c6reg1.state.teams 1).map Team.name = some ("Red") ∧
    (findTeam c6afterClose.teams 1).map Team.players = some [] ∧
    (findTeam c6afterClose.teams 1).map Team.name = some ("Red") ∧
    (findTeam c6reg2.state.teams 1).map Team.name = some ("Blue") := by
  with_unfolding_all decide

/-- C6 (amended): a team's displayName is never altered by a
`register_player` while the team still has at least one member; only a
registration hitting an EMPTY team (its first member, or the first after
all members disconnected) can set or overwrite the name. -/
theorem C6_name_stable (conn : Conn) (s : GameState) (tid : Nat) (nm : String)
    (now : Nat) (t : Team) (ht : findTeam s.teams tid = some t)
    (hne : t.players ≠ []) :
    (findTeam (onMessage conn s (.register_player tid nm) now).state.teams tid).map
      Team.name = some t.name := by
  simp only [onMessage, ht]
  split
  · rw [ht] ; rfl
  · have hlen : ¬(t.players.length = 0 ∧ nm ≠ "") := by
      intro hand
      exact hne (List.length_eq_zero.mp hand.1)
    rw [if_neg hlen]
    have hid : t.id = tid := findTeam_id ht
    rw [findTeam_updateTeam s.teams tid t
      { id := t.id, name := t.name, players := t.players ++ [s.nextId],
        position := t.position, shakeIntensity := t.shakeIntensity }
      ht hid]
    rfl

/-- C6 (witness): with team 1 still populated by its first member, a
second registration proposing `"Blue"` leaves the name `"Red"`. -/
theorem C6_witness :
    (findTeam (onMessage freshConn c6reg1.state (.register_player 1 "Blue") 9).state.teams
      1).map Team.name = some ("Red") := by
  have h := C6_name_stable freshConn c6reg1.state 1 "Blue" 9
    { id := 1, name := "Red", players := [0], position := 0, shakeIntensity := 0 }
    (by with_unfolding_all decide) (by with_unfolding_all decide)
  exact h

/-! ### C10 — re-registration orphans the previous player record -/

theorem findPlayer_append (ps : List Player) (p' : Player) (x : Nat)
    (hx : p'.id = x) (h : ∀ q ∈ ps, q.id ≠ x) :
    findPlayer (ps ++ [p']) x = some p' := by
  induction ps with
  | nil =>
    show (if p'.id = x then some p' else findPlayer [] x) = some p'
    rw [if_pos hx]
  | cons a as ih =>
    show (if a.id = x then some a else findPlayer (as ++ [p']) x) = some p'
    rw [if_neg (h a (List.mem_cons_self a as))]
    exact ih (fun q hq => h q (List.mem_cons_of_mem a hq))

theorem erasePlayer_append (ps : List Player) (p' : Player) (x : Nat)
    (hx : p'.id = x) (h : ∀ q ∈ ps, q.id ≠ x) :
    erasePlayer (ps ++ [p']) x = ps := by
  induction ps with
  | nil =>
    show (if p'.id = x then ([] : List Player) else _) = []
    rw [if_pos hx]
  | cons a as ih =>
    show (if a.id = x then as ++ [p'] else a :: erasePlayer (as ++ [p']) x) =
      a :: as
    rw [if_neg (h a (List.mem_cons_self a as))]
    rw [ih (fun q hq => h q (List.mem_cons_of_mem a hq))]

theorem mem_updateTeam_other {ts : List Team} {tid : Nat} {t' u : Team}
    (hu : u ∈ ts) (hid : u.id ≠ tid) : u ∈ updateTeam ts tid t' := by
  induction ts with
  | nil => cases hu
  | cons a as ih =>
    show u ∈ (if a.id = tid then t' else a) :: updateTeam as tid t'
    rcases List.mem_cons.mp hu with hu | hu
    · subst hu
      rw [if_neg hid]
      exact List.mem_cons_self u _
    · exact List.mem_cons_of_mem _ (ih hu)

/-- With distinct team ids, lookup by a member's id returns that member. -/
theorem findTeam_of_nodup :
    ∀ (ts : List Team) (u : Team), (ts.map Team.id).Nodup → u ∈ ts →
      findTeam ts u.id = some u
  | [], u, _, hu => by cases hu
  | a :: as, u, hn, hu => by
    rcases List.mem_cons.mp hu with hu | hu
    · subst hu
      show (if u.id = u.id then some u else findTeam as u.id) = some u
      rw [if_pos rfl]
    · show (if a.id = u.id then some a else findTeam as u.id) = some u
      have hne : a.id ≠ u.id := by
        intro he
        exact (List.nodup_cons.mp hn).1 (he ▸ List.mem_map_of_mem Team.id hu)
      rw [if_neg hne]
      exact findTeam_of_nodup as u (List.nodup_cons.mp hn).2 hu

theorem filter_ne_self (l : List Nat) (y : Nat) (h : ∀ x ∈ l, x ≠ y) :
    l.filter (fun i => i != y) = l :=
  List.filter_eq_self.mpr (fun a ha => by simpa [bne_iff_ne] using h a ha)

/-- Core of C10: once a fresh member id is appended to team `tid` and a
fresh record to the registry, a close of the NEW association removes only
the fresh id: the old record `p` survives in the registry and in its
team's member list. -/
theorem reregister_then_close (s : GameState) (tid : Nat) (now : Nat) (p : Player)
    (t : Team) (tname : String)
    (hp : p ∈ s.players) (ht : findTeam s.teams tid = some t)
    (hid : t.id = tid)
    (hbound : ∀ q ∈ s.players, q.id < s.nextId)
    (htbound : ∀ u ∈ s.teams, ∀ pid ∈ u.players, pid < s.nextId)
    (hnodup : (s.teams.map Team.id).Nodup) :
    p ∈ (onClose { clientType := some .player, playerId := some s.nextId }
          { s with
            teams := updateTeam s.teams tid
              { id := t.id, name := tname, players := t.players ++ [s.nextId],
                position := t.position, shakeIntensity := t.shakeIntensity },
            players := s.players ++
              [{ id := s.nextId, teamId := tid, shakeIntensity := 0, lastShake := now }],
            nextId := s.nextId + 1 }).players ∧
    ∀ u ∈ s.teams, p.id ∈ u.players →
      ∃ u' ∈ (onClose { clientType := some .player, playerId := some s.nextId }
            { s with
              teams := updateTeam s.teams tid
                { id := t.id, name := tname, players := t.players ++ [s.nextId],
                  position := t.position, shakeIntensity := t.shakeIntensity },
              players := s.players ++
                [{ id := s.nextId, teamId := tid, shakeIntensity := 0, lastShake := now }],
              nextId := s.nextId + 1 }).teams,
        u'.id = u.id ∧ p.id ∈ u'.players := by
  have hfreshp : ∀ q ∈ s.players, q.id ≠ s.nextId :=
    fun q hq => Nat.ne_of_lt (hbound q hq)
  have hfp : findPlayer
      (s.players ++
        [{ id := s.nextId, teamId := tid, shakeIntensity := 0, lastShake := now }])
      s.nextId =
      some { id := s.nextId, teamId := tid, shakeIntensity := 0, lastShake := now } :=
    findPlayer_append s.players _ s.nextId rfl hfreshp
  have hft : findTeam (updateTeam s.teams tid
      { id := t.id, name := tname, players := t.players ++ [s.nextId],
        position := t.position, shakeIntensity := t.shakeIntensity }) tid =
      some
        { id := t.id, name := tname, players := t.players ++ [s.nextId],
          position := t.position, shakeIntensity := t.shakeIntensity } :=
    findTeam_updateTeam s.teams tid t _ ht hid
  have hmem_t : ∀ x ∈ t.players, x ≠ s.nextId :=
    fun x hx => Nat.ne_of_lt (htbound t (findTeam_mem ht) x hx)
  have hfilter :
      (t.players ++ [s.nextId]).filter (fun i => i != s.nextId) = t.players := by
    rw [List.filter_append, filter_ne_self t.players s.nextId hmem_t]
    simp
  have herase : erasePlayer
      (s.players ++
        [{ id := s.nextId, teamId := tid, shakeIntensity := 0, lastShake := now }])
      s.nextId = s.players :=
    erasePlayer_append s.players _ s.nextId rfl hfreshp
  constructor
  · simp only [onClose, hfp, hft]
    rw [herase]
    exact hp
  · intro u hu hup
    simp only [onClose, hfp, hft, hfilter]
    by_cases huid : u.id = tid
    · have h2 := findTeam_of_nodup s.teams u hnodup hu
      rw [huid, ht] at h2
      have hut : u = t := (Option.some.inj h2).symm
      rw [hut] at hup
      refine ⟨{ id := t.id, name := tname, players := t.players,
                position := t.position, shakeIntensity := t.shakeIntensity },
              ?_, ?_, hup⟩
      · exact findTeam_mem (findTeam_updateTeam _ tid _ _ hft hid)
      · rw [hut]
    · exact ⟨u, mem_updateTeam_other (mem_updateTeam_other hu huid) huid, rfl, hup⟩

/-- C10: a connection that already holds a player registering again (to a
valid, non-full team) gets a fresh player id and the connection's
association switches to it, while the previous record stays in the
registry and in its team's membership list (still counting toward
capacity, since the new member list is the old one plus the fresh id);
and a subsequent disconnect removes only the most recent id — the
previous record survives both in the registry and in its team. -/
theorem C10_reregistration (conn : Conn) (s : GameState) (tid : Nat) (nm : String)
    (now : Nat) (p : Player) (t : Team)
    (hrole : conn.clientType = some .player)
    (hpid : conn.playerId = some p.id)
    (hp : p ∈ s.players)
    (ht : findTeam s.teams tid = some t)
    (hroom : t.players.length < s.settings.maxPlayers)
    (hbound : ∀ q ∈ s.players, q.id < s.nextId)
    (htbound : ∀ u ∈ s.teams, ∀ pid ∈ u.players, pid < s.nextId)
    (hnodup : (s.teams.map Team.id).Nodup) :
    (onMessage conn s (.register_player tid nm) now).conn.playerId = some s.nextId ∧
    s.nextId ≠ p.id ∧
    p ∈ (onMessage conn s (.register_player tid nm) now).state.players ∧
    (findTeam (onMessage conn s (.register_player tid nm) now).state.teams tid).map
        Team.players = some (t.players ++ [s.nextId]) ∧
    p ∈ (onClose (onMessage conn s (.register_player tid nm) now).conn
          (onMessage conn s (.register_player tid nm) now).state).players ∧
    (∀ u ∈ s.teams, p.id ∈ u.players →
      ∃ u' ∈ (onClose (onMessage conn s (.register_player tid nm) now).conn
               (onMessage conn s (.register_player tid nm) now).state).teams,
        u'.id = u.id ∧ p.id ∈ u'.players) := by
  have hid : t.id = tid := findTeam_id ht
  have hfresh : s.nextId ≠ p.id := fun he => absurd (he ▸ hbound p hp) (lt_irrefl _)
  -- the success branch of register_player is taken
  simp only [onMessage, ht]
  rw [if_neg (by omega : ¬ s.settings.maxPlayers ≤ t.players.length)]
  by_cases hname : t.players.length = 0 ∧ nm ≠ ""
  · rw [if_pos hname]
    have hcore := reregister_then_close s tid now p t nm hp ht hid hbound htbound hnodup
    have hft := findTeam_updateTeam s.teams tid t
      { id := t.id, name := nm, players := t.players ++ [s.nextId],
        position := t.position, shakeIntensity := t.shakeIntensity } ht hid
    refine ⟨rfl, hfresh, List.mem_append_left _ hp, ?_, hcore.1, hcore.2⟩
    show (findTeam (updateTeam s.teams tid
        { id := t.id, name := nm, players := t.players ++ [s.nextId],
          position := t.position, shakeIntensity := t.shakeIntensity }) tid).map
        Team.players = some (t.players ++ [s.nextId])
    rw [hft]
    rfl
  · rw [if_neg hname]
    have hcore := reregister_then_close s tid now p t t.name hp ht hid hbound htbound hnodup
    have hft := findTeam_updateTeam s.teams tid t
      { id := t.id, name := t.name, players := t.players ++ [s.nextId],
        position := t.position, shakeIntensity := t.shakeIntensity } ht hid
    refine ⟨rfl, hfresh, List.mem_append_left _ hp, ?_, hcore.1, hcore.2⟩
    show (findTeam (updateTeam s.teams tid
        { id := t.id, name := t.name, players := t.players ++ [s.nextId],
          position := t.position, shakeIntensity := t.shakeIntensity }) tid).map
        Team.players = some (t.players ++ [s.nextId])
    rw [hft]
    rfl

set_option maxRecDepth 8000 in
/-- C10 (witness): the concrete double registration from the initial
state: the connection that registered player 0 to team 1 registers again;
it now holds id 1, and after its disconnect the original record of player
0 is still in the registry. -/
theorem C10_witness :
    (onMessage c6reg1.conn c6reg1.state (.register_player 1 "Black") 50).conn.playerId =
        some 1 ∧
    ({ id := 0, teamId := 1, shakeIntensity := 0, lastShake := 0 } : Player) ∈
      (onMessage c6reg1.conn c6reg1.state (.register_player 1 "Black") 50).state.players ∧
    ({ id := 0, teamId := 1, shakeIntensity := 0, lastShake := 0 } : Player) ∈
      (onClose (onMessage c6reg1.conn c6reg1.state (.register_player 1 "Black") 50).conn
        (onMessage c6reg1.conn c6reg1.state (.register_player 1 "Black") 50).state).players := by
  have h := C10_reregistration c6reg1.conn c6reg1.state 1 "Black" 50
    { id := 0, teamId := 1, shakeIntensity := 0, lastShake := 0 }
    { id := 1, name := "Red", players := [0], position := 0, shakeIntensity := 0 }
    (by with_unfolding_all decide) (by with_unfolding_all decide)
    (by with_unfolding_all decide) (by with_unfolding_all decide)
    (by with_unfolding_all decide) (by with_unfolding_all decide)
    (by with_unfolding_all decide) (by with_unfolding_all decide)
  exact ⟨h.1, h.2.2.1, h.2.2.2.2.1⟩

/-! ### C7 — registry / roster consistency -/

/-- The claim's consistency property, executable: every registry record's
teamId names a team whose member list holds the record's id, and every id
in any member list has a registry record. -/
def consistentB (s : GameState) : Bool :=
  s.players.all (fun p =>
    s.teams.any (fun t => t.id == p.teamId && t.players.any (fun x => x == p.id))) &&
  s.teams.all (fun t =>
    t.players.all (fun pid => s.players.any (fun p => p.id == pid)))

/-- Inductive well-formedness of the game state: the claim's consistency
plus the auxiliary facts (fresh-counter bounds and key uniqueness) needed
to push it through every handler. -/
structure WF (s : GameState) : Prop where
  ptmem : ∀ p ∈ s.players, ∃ t ∈ s.teams, t.id = p.teamId ∧ p.id ∈ t.players
  tpmem : ∀ t ∈ s.teams, ∀ pid ∈ t.players,
    ∃ p ∈ s.players, p.id = pid ∧ p.teamId = t.id
  pbound : ∀ p ∈ s.players, p.id < s.nextId
  tbound : ∀ t ∈ s.teams, ∀ pid ∈ t.players, pid < s.nextId
  pnodup : (s.players.map Player.id).Nodup
  tnodup : (s.teams.map Team.id).Nodup

theorem consistentB_of_wf (s : GameState) (h : WF s) : consistentB s = true := by
  unfold consistentB
  rw [Bool.and_eq_true, List.all_eq_true, List.all_eq_true]
  constructor
  · intro p hp
    rcases h.ptmem p hp with ⟨t, ht, hid, hmem⟩
    rw [List.any_eq_true]
    refine ⟨t, ht, ?_⟩
    rw [Bool.and_eq_true, beq_iff_eq, List.any_eq_true]
    exact ⟨hid, p.id, hmem, by rw [beq_iff_eq]⟩
  · intro t ht
    rw [List.all_eq_true]
    intro pid hpid
    rcases h.tpmem t ht pid hpid with ⟨p, hp, hid, _⟩
    rw [List.any_eq_true]
    exact ⟨p, hp, by rw [beq_iff_eq] ; exact hid⟩

/-- Well-formedness only reads the teams, players and the counter. -/
theorem wf_of_eq (s s' : GameState) (h : WF s) (hT : s'.teams = s.teams)
    (hP : s'.players = s.players) (hN : s'.nextId = s.nextId) : WF s' := by
  constructor
  · rw [hP, hT] ; exact h.ptmem
  · rw [hP, hT] ; exact h.tpmem
  · rw [hP, hN] ; exact h.pbound
  · rw [hT, hN] ; exact h.tbound
  · rw [hP] ; exact h.pnodup
  · rw [hT] ; exact h.tnodup

/-- Every team produced by `initializeTeams` is empty. -/
theorem initializeTeams_players (st : Settings) :
    ∀ t ∈ initializeTeams st, t.players = [] := by
  intro t ht
  rcases List.mem_map.mp ht with ⟨i, _, rfl⟩
  rfl

/-- The ids `1..numTeams` produced by `initializeTeams` are distinct. -/
theorem initializeTeams_nodup (st : Settings) :
    ((initializeTeams st).map Team.id).Nodup := by
  unfold initializeTeams
  rw [List.map_map]
  exact (List.nodup_range st.numTeams).map (fun a b h => Nat.succ_injective h)

/-- A state with an empty registry and freshly initialized teams is
well formed. -/
theorem wf_fresh (s' : GameState) (st : Settings)
    (hT : s'.teams = initializeTeams st) (hP : s'.players = []) : WF s' := by
  constructor
  · rw [hP] ; intro p hp ; cases hp
  · rw [hT]
    intro t ht pid hpid
    rw [initializeTeams_players st t ht] at hpid
    cases hpid
  · rw [hP] ; intro p hp ; cases hp
  · rw [hT]
    intro t ht pid hpid
    rw [initializeTeams_players st t ht] at hpid
    cases hpid
  · rw [hP] ; exact List.nodup_nil
  · rw [hT] ; exact initializeTeams_nodup st

theorem wf_initialState : WF initialState :=
  wf_fresh initialState initialSettings rfl rfl

/-- Mapping a registry transformation that keeps ids and team
associations preserves well-formedness. -/
theorem wf_mapPlayers (s : GameState) (g : Player → Player)
    (hg : ∀ p, (g p).id = p.id ∧ (g p).teamId = p.teamId)
    (h : WF s) : WF { s with players := s.players.map g } := by
  constructor
  · intro q hq
    rcases List.mem_map.mp hq with ⟨p, hp, rfl⟩
    rcases h.ptmem p hp with ⟨t, ht, hid, hmem⟩
    refine ⟨t, ht, ?_, ?_⟩
    · rw [(hg p).2] ; exact hid
    · rw [(hg p).1] ; exact hmem
  · intro t ht pid hpid
    rcases h.tpmem t ht pid hpid with ⟨p, hp, hid, htid⟩
    refine ⟨g p, List.mem_map_of_mem g hp, ?_, ?_⟩
    · rw [(hg p).1] ; exact hid
    · rw [(hg p).2] ; exact htid
  · intro q hq
    rcases List.mem_map.mp hq with ⟨p, hp, rfl⟩
    rw [(hg p).1]
    exact h.pbound p hp
  · exact h.tbound
  · have hc : Player.id ∘ g = Player.id := funext (fun p => (hg p).1)
    show ((s.players.map g).map Player.id).Nodup
    rw [List.map_map, hc]
    exact h.pnodup
  · exact h.tnodup

/-- Mapping a team transformation that keeps ids and member lists
preserves well-formedness. -/
theorem wf_mapTeams (s : GameState) (g : Team → Team)
    (hg : ∀ t, (g t).id = t.id ∧ (g t).players = t.players)
    (h : WF s) : WF { s with teams := s.teams.map g } := by
  constructor
  · intro p hp
    rcases h.ptmem p hp with ⟨t, ht, hid, hmem⟩
    refine ⟨g t, List.mem_map_of_mem g ht, ?_, ?_⟩
    · rw [(hg t).1] ; exact hid
    · rw [(hg t).2] ; exact hmem
  · intro u hu pid hpid
    rcases List.mem_map.mp hu with ⟨t, ht, rfl⟩
    rw [(hg t).2] at hpid
    rcases h.tpmem t ht pid hpid with ⟨p, hp, hid, htid⟩
    refine ⟨p, hp, hid, ?_⟩
    rw [(hg t).1] ; exact htid
  · exact h.pbound
  · intro u hu pid hpid
    rcases List.mem_map.mp hu with ⟨t, ht, rfl⟩
    rw [(hg t).2] at hpid
    exact h.tbound t ht pid hpid
  · exact h.pnodup
  · have hc : Team.id ∘ g = Team.id := funext (fun t => (hg t).1)
    show ((s.teams.map g).map Team.id).Nodup
    rw [List.map_map, hc]
    exact h.tnodup

/-- `updateTeam` is the pointwise key-match update. -/
theorem updateTeam_eq_map (ts : List Team) (tid : Nat) (t' : Team) :
    updateTeam ts tid t' = ts.map (fun u => if u.id = tid then t' else u) := by
  induction ts with
  | nil => rfl
  | cons a as ih =>
    show (if a.id = tid then t' else a) :: updateTeam as tid t' = _
    rw [ih]
    rfl

/-- `updatePlayer` is the pointwise key-match update. -/
theorem updatePlayer_eq_map (ps : List Player) (pid : Nat) (f : Player → Player) :
    updatePlayer ps pid f = ps.map (fun p => if p.id = pid then f p else p) := by
  induction ps with
  | nil => rfl
  | cons a as ih =>
    show (if a.id = pid then f a else a) :: updatePlayer as pid f = _
    rw [ih]
    rfl

/-- Replacing the team under a key by a team with that id leaves the
key sequence unchanged. -/
theorem updateTeam_map_id (ts : List Team) (tid : Nat) (t' : Team)
    (hid : t'.id = tid) : (updateTeam ts tid t').map Team.id = ts.map Team.id := by
  induction ts with
  | nil => rfl
  | cons a as ih =>
    show ((if a.id = tid then t' else a) :: updateTeam as tid t').map Team.id = _
    by_cases ha : a.id = tid
    · rw [if_pos ha]
      show t'.id :: (updateTeam as tid t').map Team.id = a.id :: as.map Team.id
      rw [ih, hid, ha]
    · rw [if_neg ha]
      show a.id :: (updateTeam as tid t').map Team.id = a.id :: as.map Team.id
      rw [ih]

/-- With distinct registry ids, two records sharing an id are the same
record. -/
theorem eq_of_mem_same_id :
    ∀ {ps : List Player}, (ps.map Player.id).Nodup →
      ∀ {p q : Player}, p ∈ ps → q ∈ ps → p.id = q.id → p = q := by
  intro ps
  induction ps with
  | nil => intro _ p q hp ; cases hp
  | cons a as ih =>
    intro hn p q hp hq hid
    have hna : a.id ∉ as.map Player.id := (List.nodup_cons.mp hn).1
    rcases List.mem_cons.mp hp with hp | hp <;> rcases List.mem_cons.mp hq with hq | hq
    · rw [hp, hq]
    · have hmm : q.id ∈ as.map Player.id := List.mem_map_of_mem Player.id hq
      rw [← hid, hp] at hmm
      exact absurd hmm hna
    · have hmm : p.id ∈ as.map Player.id := List.mem_map_of_mem Player.id hp
      rw [hid, hq] at hmm
      exact absurd hmm hna
    · exact ih (List.nodup_cons.mp hn).2 hp hq hid

theorem findPlayer_id :
    ∀ {ps : List Player} {pid : Nat} {p : Player},
      findPlayer ps pid = some p → p.id = pid := by
  intro ps
  induction ps with
  | nil => intro pid p h ; cases h
  | cons a as ih =>
    intro pid p h
    simp only [findPlayer] at h
    split at h
    · cases h ; assumption
    · exact ih h

/-- Erasing a key yields a sublist of the registry. -/
theorem erasePlayer_sublist (ps : List Player) (pid : Nat) :
    List.Sublist (erasePlayer ps pid) ps := by
  induction ps with
  | nil => exact List.Sublist.refl []
  | cons a as ih =>
    show List.Sublist (if a.id = pid then as else a :: erasePlayer as pid) (a :: as)
    split
    · exact List.sublist_cons_self a as
    · exact List.Sublist.cons₂ a ih

theorem mem_of_mem_erasePlayer {ps : List Player} {pid : Nat} {q : Player}
    (h : q ∈ erasePlayer ps pid) : q ∈ ps :=
  (erasePlayer_sublist ps pid).subset h

/-- A record whose id differs from the erased key survives the erase. -/
theorem mem_erasePlayer_of_ne {ps : List Player} {pid : Nat} {q : Player}
    (hq : q ∈ ps) (hne : q.id ≠ pid) : q ∈ erasePlayer ps pid := by
  induction ps with
  | nil => cases hq
  | cons a as ih =>
    show q ∈ (if a.id = pid then as else a :: erasePlayer as pid)
    rcases List.mem_cons.mp hq with hq | hq
    · subst hq
      rw [if_neg hne]
      exact List.mem_cons_self q _
    · split
      · exact hq
      · exact List.mem_cons_of_mem a (ih hq)

/-- With distinct registry ids, everything surviving the erase of a
present key has a different id. -/
theorem id_ne_of_mem_erasePlayer :
    ∀ {ps : List Player} {pid : Nat} {q : Player},
      (ps.map Player.id).Nodup → q ∈ erasePlayer ps pid →
      (∃ p, findPlayer ps pid = some p) → q.id ≠ pid := by
  intro ps
  induction ps with
  | nil => intro pid q _ hq ; cases hq
  | cons a as ih =>
    intro pid q hn hq hex
    have hna : a.id ∉ as.map Player.id := (List.nodup_cons.mp hn).1
    by_cases ha : a.id = pid
    · rw [show erasePlayer (a :: as) pid = as from if_pos ha] at hq
      intro he
      exact hna (by rw [ha, ← he] ; exact List.mem_map_of_mem Player.id hq)
    · rw [show erasePlayer (a :: as) pid = a :: erasePlayer as pid from if_neg ha] at hq
      rcases List.mem_cons.mp hq with hq | hq
      · subst hq ; exact ha
      · rcases hex with ⟨p, hp⟩
        rw [show findPlayer (a :: as) pid = findPlayer as pid from if_neg ha] at hp
        exact ih (List.nodup_cons.mp hn).2 hq ⟨p, hp⟩

/-- A member of a team with a given id forces the key lookup to succeed. -/
theorem findTeam_isSome_of_mem :
    ∀ {ts : List Team} {u : Team} {x : Nat},
      u ∈ ts → u.id = x → findTeam ts x ≠ none := by
  intro ts
  induction ts with
  | nil => intro u x hu ; cases hu
  | cons a as ih =>
    intro u x hu hx
    show (if a.id = x then some a else findTeam as x) ≠ none
    rcases List.mem_cons.mp hu with hu | hu
    · subst hu
      rw [if_pos hx]
      exact Option.some_ne_none _
    · split
      · exact Option.some_ne_none _
      · exact ih hu hx

theorem tick_nextId (s : GameState) (now : Nat) : (tick s now).nextId = s.nextId := by
  unfold tick
  split <;> rfl

/-- A tick preserves well-formedness: the racing pass keeps every team's
id and member list, and the decay pass keeps every record's id and team. -/
theorem wf_tick (s : GameState) (now : Nat) (h : WF s) : WF (tick s now) := by
  have hmid : WF { s with teams := (tick s now).teams } := by
    by_cases hst : s.gameStatus = .racing
    · rw [tick_teams_racing s now hst]
      exact wf_mapTeams s (advanceTeam s.players s.settings)
        (fun t => by unfold advanceTeam ; split <;> exact ⟨rfl, rfl⟩) h
    · rw [tick_teams_not_racing s now hst]
      exact h
  have hmid2 := wf_mapPlayers { s with teams := (tick s now).teams } (decayPlayer now)
    (fun p => by unfold decayPlayer ; split <;> exact ⟨rfl, rfl⟩) hmid
  exact wf_of_eq _ (tick s now) hmid2 rfl (tick_players s now) (tick_nextId s now)

/-- The state reached by removing a disconnected player from its team and
from the registry stays well formed. -/
theorem wf_close_core (s : GameState) (pid : Nat) (player : Player) (team : Team)
    (h : WF s)
    (hfp : findPlayer s.players pid = some player)
    (hft : findTeam s.teams player.teamId = some team) :
    WF { s with
         teams := updateTeam s.teams player.teamId
           { team with players := team.players.filter (fun i => i != pid) },
         players := erasePlayer s.players pid } := by
  have hteam_id : team.id = player.teamId := findTeam_id hft
  have hteam_mem : team ∈ s.teams := findTeam_mem hft
  have hplayer_id : player.id = pid := findPlayer_id hfp
  have hplayer_mem : player ∈ s.players := findPlayer_mem hfp
  rw [updateTeam_eq_map]
  constructor
  · intro q hq
    have hqs : q ∈ s.players := mem_of_mem_erasePlayer hq
    have hqne : q.id ≠ pid := id_ne_of_mem_erasePlayer h.pnodup hq ⟨player, hfp⟩
    rcases h.ptmem q hqs with ⟨u, hu, huid, humem⟩
    by_cases hcase : u.id = player.teamId
    · have hu_eq : u = team := by
        have h2 := findTeam_of_nodup s.teams u h.tnodup hu
        rw [hcase, hft] at h2
        exact (Option.some.inj h2).symm
      refine ⟨{ team with players := team.players.filter (fun i => i != pid) },
              List.mem_map.mpr ⟨u, hu, by rw [if_pos hcase]⟩, ?_, ?_⟩
      · show team.id = q.teamId
        rw [← huid, hu_eq]
      · show q.id ∈ team.players.filter (fun i => i != pid)
        rw [List.mem_filter]
        refine ⟨?_, bne_iff_ne.mpr hqne⟩
        rw [← hu_eq]
        exact humem
    · exact ⟨u, List.mem_map.mpr ⟨u, hu, by rw [if_neg hcase]⟩, huid, humem⟩
  · intro u' hu' pid' hpid'
    rcases List.mem_map.mp hu' with ⟨u, hu, hdef⟩
    by_cases hcase : u.id = player.teamId
    · have hu_eq : u = team := by
        have h2 := findTeam_of_nodup s.teams u h.tnodup hu
        rw [hcase, hft] at h2
        exact (Option.some.inj h2).symm
      rw [if_pos hcase] at hdef
      rw [← hdef] at hpid'
      have hmemf := List.mem_filter.mp hpid'
      rcases h.tpmem team hteam_mem pid' hmemf.1 with ⟨p, hp, hpid2, hptid⟩
      refine ⟨p, mem_erasePlayer_of_ne hp ?_, hpid2, ?_⟩
      · rw [hpid2]
        exact bne_iff_ne.mp hmemf.2
      · rw [hptid, ← hdef]
    · rw [if_neg hcase] at hdef
      rcases h.tpmem u hu pid'
        (show pid' ∈ u.players by rw [hdef] ; exact hpid') with ⟨p, hp, hpid2, hptid⟩
      have hpne : p.id ≠ pid := by
        intro he
        have hpp : p = player :=
          eq_of_mem_same_id h.pnodup hp hplayer_mem (by rw [he, hplayer_id])
        rw [hpp] at hptid
        exact hcase (by rw [← hptid])
      exact ⟨p, mem_erasePlayer_of_ne hp hpne, hpid2, by rw [hptid, hdef]⟩
  · intro q hq
    exact h.pbound q (mem_of_mem_erasePlayer hq)
  · intro u' hu' pid' hpid'
    rcases List.mem_map.mp hu' with ⟨u, hu, hdef⟩
    by_cases hcase : u.id = player.teamId
    · rw [if_pos hcase] at hdef
      rw [← hdef] at hpid'
      have hmemf := List.mem_filter.mp hpid'
      exact h.tbound team hteam_mem pid' hmemf.1
    · rw [if_neg hcase] at hdef
      exact h.tbound u hu pid' (show pid' ∈ u.players by rw [hdef] ; exact hpid')
  · exact List.Nodup.sublist ((erasePlayer_sublist s.players pid).map Player.id) h.pnodup
  · show ((s.teams.map (fun u => if u.id = player.teamId then
      { team with players := team.players.filter (fun i => i != pid) } else u)).map
        Team.id).Nodup
    rw [← updateTeam_eq_map s.teams player.teamId
      { team with players := team.players.filter (fun i => i != pid) }]
    rw [updateTeam_map_id s.teams player.teamId
      { team with players := team.players.filter (fun i => i != pid) } hteam_id]
    exact h.tnodup

/-- `ws.on('close')` preserves well-formedness. -/
theorem wf_onClose (conn : Conn) (s : GameState) (h : WF s) : WF (onClose conn s) := by
  rcases conn with ⟨ct, cp⟩
  cases ct with
  | none => exact h
  | some ct =>
    cases ct with
    | display => exact h
    | admin => exact h
    | player =>
      cases cp with
      | none => exact h
      | some pid =>
        cases hfp : findPlayer s.players pid with
        | none =>
          have heq : onClose { clientType := some .player, playerId := some pid } s = s := by
            simp only [onClose, hfp]
          rw [heq]
          exact h
        | some player =>
          have hpmem : player ∈ s.players := findPlayer_mem hfp
          rcases h.ptmem player hpmem with ⟨t0, ht0, ht0id, _⟩
          cases hft : findTeam s.teams player.teamId with
          | none => exact absurd hft (findTeam_isSome_of_mem ht0 ht0id)
          | some team =>
            have heq : onClose { clientType := some .player, playerId := some pid } s =
                { s with
                  teams := updateTeam s.teams player.teamId
                    { team with players := team.players.filter (fun i => i != pid) },
                  players := erasePlayer s.players pid } := by
              simp only [onClose, hfp, hft]
            rw [heq]
            exact wf_close_core s pid player team h hfp hft

/-- The state reached by appending a fresh member to a looked-up team
(and its fresh record to the registry) stays well formed. -/
theorem wf_register_core (s : GameState) (tid : Nat) (t : Team) (tname : String)
    (now : Nat) (h : WF s) (ht : findTeam s.teams tid = some t) :
    WF { s with
         teams := updateTeam s.teams tid
           { id := t.id, name := tname, players := t.players ++ [s.nextId],
             position := t.position, shakeIntensity := t.shakeIntensity },
         players := s.players ++
           [{ id := s.nextId, teamId := tid, shakeIntensity := 0, lastShake := now }],
         nextId := s.nextId + 1 } := by
  have hid : t.id = tid := findTeam_id ht
  have htmem : t ∈ s.teams := findTeam_mem ht
  rw [updateTeam_eq_map]
  constructor
  · intro q hq
    rcases List.mem_append.mp hq with hq | hq
    · rcases h.ptmem q hq with ⟨u, hu, huid, humem⟩
      by_cases hcase : u.id = tid
      · have hu_eq : u = t := by
          have h2 := findTeam_of_nodup s.teams u h.tnodup hu
          rw [hcase, ht] at h2
          exact (Option.some.inj h2).symm
        refine ⟨{ id := t.id, name := tname, players := t.players ++ [s.nextId],
                  position := t.position, shakeIntensity := t.shakeIntensity },
                List.mem_map.mpr ⟨u, hu, by rw [if_pos hcase]⟩, ?_, ?_⟩
        · show t.id = q.teamId
          rw [← huid, hu_eq]
        · show q.id ∈ t.players ++ [s.nextId]
          refine List.mem_append_left _ ?_
          rw [← hu_eq]
          exact humem
      · exact ⟨u, List.mem_map.mpr ⟨u, hu, by rw [if_neg hcase]⟩, huid, humem⟩
    · rw [List.mem_singleton.mp hq]
      refine ⟨{ id := t.id, name := tname, players := t.players ++ [s.nextId],
                position := t.position, shakeIntensity := t.shakeIntensity },
              List.mem_map.mpr ⟨t, htmem, by rw [if_pos hid]⟩, ?_, ?_⟩
      · show t.id = tid
        exact hid
      · show s.nextId ∈ t.players ++ [s.nextId]
        exact List.mem_append_right _ (List.mem_singleton.mpr rfl)
  · intro u' hu' pid' hpid'
    rcases List.mem_map.mp hu' with ⟨u, hu, hdef⟩
    by_cases hcase : u.id = tid
    · rw [if_pos hcase] at hdef
      rw [← hdef] at hpid'
      have hmem2 : pid' ∈ t.players ++ [s.nextId] := hpid'
      rcases List.mem_append.mp hmem2 with hm | hm
      · rcases h.tpmem t htmem pid' hm with ⟨p, hp, hpid2, hptid⟩
        refine ⟨p, List.mem_append_left _ hp, hpid2, ?_⟩
        rw [hptid, ← hdef]
      · refine ⟨{ id := s.nextId, teamId := tid, shakeIntensity := 0, lastShake := now },
                List.mem_append_right _ (List.mem_singleton.mpr rfl),
                (List.mem_singleton.mp hm).symm, ?_⟩
        show tid = u'.id
        rw [← hdef]
        exact hid.symm
    · rw [if_neg hcase] at hdef
      rcases h.tpmem u hu pid'
        (show pid' ∈ u.players by rw [hdef] ; exact hpid') with ⟨p, hp, hpid2, hptid⟩
      exact ⟨p, List.mem_append_left _ hp, hpid2, by rw [hptid, hdef]⟩
  · intro q hq
    rcases List.mem_append.mp hq with hq | hq
    · exact Nat.lt_succ_of_lt (h.pbound q hq)
    · rw [List.mem_singleton.mp hq]
      exact Nat.lt_succ_self _
  · intro u' hu' pid' hpid'
    rcases List.mem_map.mp hu' with ⟨u, hu, hdef⟩
    by_cases hcase : u.id = tid
    · rw [if_pos hcase] at hdef
      rw [← hdef] at hpid'
      have hmem2 : pid' ∈ t.players ++ [s.nextId] := hpid'
      rcases List.mem_append.mp hmem2 with hm | hm
      · exact Nat.lt_succ_of_lt (h.tbound t htmem pid' hm)
      · rw [List.mem_singleton.mp hm]
        exact Nat.lt_succ_self _
    · rw [if_neg hcase] at hdef
      exact Nat.lt_succ_of_lt (h.tbound u hu pid'
        (show pid' ∈ u.players by rw [hdef] ; exact hpid'))
  · show ((s.players ++
      [({ id := s.nextId, teamId := tid, shakeIntensity := 0, lastShake := now } : Player)]).map
        Player.id).Nodup
    rw [List.map_append]
    refine List.Nodup.append h.pnodup (List.nodup_singleton _) ?_
    intro a ha1 ha2
    rcases List.mem_map.mp ha1 with ⟨p, hp, rfl⟩
    have ha2' : p.id = s.nextId := List.mem_singleton.mp ha2
    exact absurd (ha2' ▸ h.pbound p hp) (lt_irrefl _)
  · show ((s.teams.map (fun u => if u.id = tid then
      { id := t.id, name := tname, players := t.players ++ [s.nextId],
        position := t.position, shakeIntensity := t.shakeIntensity } else u)).map
        Team.id).Nodup
    rw [← updateTeam_eq_map s.teams tid
      { id := t.id, name := tname, players := t.players ++ [s.nextId],
        position := t.position, shakeIntensity := t.shakeIntensity }]
    rw [updateTeam_map_id s.teams tid
      { id := t.id, name := tname, players := t.players ++ [s.nextId],
        position := t.position, shakeIntensity := t.shakeIntensity } hid]
    exact h.tnodup

/-- Recognizer for the `update_settings` message kind (the one handler
that breaks registry/roster consistency). -/
def InMsg.usesSettings : InMsg → Bool
  | .update_settings _ _ _ _ => true
  | _ => false

/-- Every inbound message other than `update_settings` preserves
well-formedness. -/
theorem wf_onMessage (conn : Conn) (s : GameState) (m : InMsg) (now : Nat)
    (h : WF s) (hm : m.usesSettings = false) :
    WF (onMessage conn s m now).state := by
  cases m with
  | request_state =>
    simp only [onMessage]
    split <;> exact h
  | register_display => exact h
  | register_admin => exact h
  | register_player tid nm =>
    simp only [onMessage]
    cases hft : findTeam s.teams tid with
    | none => exact h
    | some t =>
      simp only [hft]
      split
      · exact h
      · by_cases hname : t.players.length = 0 ∧ nm ≠ ""
        · rw [if_pos hname]
          exact wf_register_core s tid t nm now h hft
        · rw [if_neg hname]
          exact wf_register_core s tid t t.name now h hft
  | update_shake intensity =>
    simp only [onMessage]
    cases hcp : conn.playerId with
    | none => exact h
    | some pid =>
      simp only [hcp]
      cases hfp : findPlayer s.players pid with
      | none => exact h
      | some p =>
        simp only [hfp]
        rw [updatePlayer_eq_map]
        exact wf_mapPlayers s _ (fun q => by split <;> exact ⟨rfl, rfl⟩) h
  | start_race =>
    simp only [onMessage]
    split
    · split
      · exact wf_of_eq _ _ (wf_mapTeams s
          (fun t => { t with position := 0, shakeIntensity := 0 })
          (fun t => ⟨rfl, rfl⟩) h) rfl rfl rfl
      · exact h
    · exact h
  | update_settings a b c d => simp [InMsg.usesSettings] at hm
  | reset_game =>
    simp only [onMessage]
    split
    · exact wf_fresh _ s.settings rfl rfl
    · exact h
  | unknown => exact h

/-- One element of the server's single-threaded event interleaving: an
inbound message on a connection, a connection close, or a timer tick. -/
inductive Event
  | msg (connId : Nat) (m : InMsg) (now : Nat)
  | close (connId : Nat)
  | timer (now : Nat)

/-- Whether the event is an `update_settings` message. -/
def Event.usesSettings : Event → Bool
  | .msg _ m _ => m.usesSettings
  | _ => false

/-- The whole server: the per-connection locals plus the shared game
state. -/
structure World where
  conns : List (Nat × Conn)
  state : GameState

/-- The per-connection closure variables for a connection id (a fresh
connection starts with both locals null). -/
def getConn (conns : List (Nat × Conn)) (cid : Nat) : Conn :=
  match conns.find? (fun e => e.1 == cid) with
  | some e => e.2
  | none => freshConn

def setConn (conns : List (Nat × Conn)) (cid : Nat) (c : Conn) : List (Nat × Conn) :=
  (cid, c) :: conns.filter (fun e => e.1 != cid)

/-- Event-level semantics: each event runs to completion before the next
(single-threaded server). -/
def stepEvent (w : World) : Event → World
  | .msg cid m now =>
    let r := onMessage (getConn w.conns cid) w.state m now
    { conns := setConn w.conns cid r.conn, state := r.state }
  | .close cid =>
    { conns := w.conns.filter (fun e => e.1 != cid),
      state := onClose (getConn w.conns cid) w.state }
  | .timer now => { conns := w.conns, state := tick w.state now }

def initialWorld : World := { conns := [], state := initialState }

def runEvents (w : World) (evs : List Event) : World := evs.foldl stepEvent w

theorem wf_stepEvent (w : World) (e : Event) (hw : WF w.state)
    (he : e.usesSettings = false) : WF (stepEvent w e).state := by
  cases e with
  | msg cid m now => exact wf_onMessage (getConn w.conns cid) w.state m now hw he
  | close cid => exact wf_onClose (getConn w.conns cid) w.state hw
  | timer now => exact wf_tick w.state now hw

theorem wf_runEvents : ∀ (evs : List Event) (w : World), WF w.state →
    (∀ e ∈ evs, e.usesSettings = false) → WF (runEvents w evs).state
  | [], _, hw, _ => hw
  | e :: rest, w, hw, h =>
    wf_runEvents rest (stepEvent w e)
      (wf_stepEvent w e hw (h e (List.mem_cons_self e rest)))
      (fun e' he' => h e' (List.mem_cons_of_mem e he'))

set_option maxRecDepth 8000 in
/-- C7 (counterexample): `update_settings` re-initializes the teams
WITHOUT evicting the player registry (src/server.js lines 204-222): with
one player registered, an admin settings update leaves that record
pointing at a team whose member list no longer contains it. -/
theorem C7_counterexample :
    consistentB c6reg1.state = true ∧
    consistentB (onMessage connAdmin c6reg1.state
      (.update_settings none none none none) 10).state = false := by
  with_unfolding_all decide

/-- C7 (amended): along every event sequence from server start that
contains no `update_settings` message, team membership lists and the
player registry remain mutually consistent after every operation
(register, shake, disconnect, start, reset, tick); `update_settings`
breaks this by rebuilding the teams without evicting the registry. -/
theorem C7_consistency (evs : List Event)
    (h : ∀ e ∈ evs, e.usesSettings = false) :
    consistentB (runEvents initialWorld evs).state = true :=
  consistentB_of_wf _ (wf_runEvents evs initialWorld wf_initialState h)

set_option maxRecDepth 8000 in
/-- C7 (witness): the consistency theorem applied to a concrete
interleaving exercising registration, shaking, ticks, disconnect, race
start and reset. -/
theorem C7_witness :
    consistentB (runEvents initialWorld
      [.msg 0 (.register_player 1 "Red") 0, .msg 1 .register_admin 5,
       .msg 0 (.update_shake 7) 20, .timer 50, .msg 1 .start_race 60,
       .timer 110, .close 0, .msg 1 .reset_game 200]).state = true :=
  C7_consistency _ (by with_unfolding_all decide)

end Shr
